import Mathlib

/-!
Shallow embedding of the rofi filter-and-navigate engine (src/source/view.c,
src/source/dialogs/drun.c) together with proofs about its behaviour.

Modelling conventions:
* `unsigned int` entry counts and indices become `Nat`; the C arrays
  `line_map` and `distance` become functions `Nat → Nat` updated pointwise,
  which is the functional semantics of the disjoint array writes performed by
  the worker tasks.
* External capabilities (the per-entry token-match predicate
  `mode_token_match`, the levenshtein distance of the query to an entry's
  completion text, the keybinding resolver `abe_test_action`, the completion
  text of an entry) are parameters of the definitions, exactly as the spec
  treats them as interfaces.
* The worker pool runs each chunk task over a private disjoint slice of
  `line_map`; the functional model runs the tasks in chunk order, which is
  observationally identical because no two tasks touch the same position.
* `g_qsort_with_data` (GLib, external) is documented as a stable merge sort
  since GLib 2.32; it is modelled by `List.mergeSort` with the `lev_sort`
  comparator.
-/

namespace RofiSpec

/-- Menu return values (`MenuReturn` in rofi's headers). The
`MENU_CUSTOM_ACTION` bit that the C code ors into `retv` is modelled as the
separate `custom_action` flag of the view state. -/
inductive MenuReturn where
  | MENU_OK
  | MENU_CANCEL
  | MENU_NEXT
  | MENU_PREVIOUS
  | MENU_CUSTOM_INPUT
  | MENU_ENTRY_DELETE
  | MENU_QUICK_SWITCH (idx : Nat)
  deriving DecidableEq, Repr

/-- The mutable fields of `RofiViewState` (view-internal.h / view.c) that the
filter and navigation machinery reads and writes.  Rendering-only fields
(textboxes, scrollbar, geometry) are omitted; `text` is the query string
`state->text->text`. -/
structure RofiViewState where
  text : String
  num_lines : Nat
  line_map : Nat → Nat
  distance : Nat → Nat
  filtered_lines : Nat
  selected : Nat
  selected_line : Nat
  max_rows : Nat
  columns : Nat
  max_elements : Nat
  menu_lines : Nat
  retv : MenuReturn
  custom_action : Bool
  quit : Bool
  update : Bool
  refilter : Bool
  rchanged : Bool
  prev_key : Nat

/-- The configuration switches (settings.h `config`) that the modelled code
reads. -/
structure RofiConfig where
  case_sensitive : Bool
  levenshtein_sort : Bool
  auto_select : Bool
  fixed_num_lines : Bool
  menu_columns : Nat
  menu_lines : Nat

/-- Write of a single array cell: `a[i] = v`. -/
def writeArr (f : Nat → Nat) (i v : Nat) : Nat → Nat :=
  fun k => if k = i then v else f k

/-- Semantics of `memmove(&a[dst], &a[src], cnt * sizeof(unsigned int))` on the
array `a`: the `cnt` cells starting at `dst` simultaneously receive the old
values of the `cnt` cells starting at `src`. -/
def memmoveArr (f : Nat → Nat) (dst src cnt : Nat) : Nat → Nat :=
  fun k => if dst ≤ k ∧ k < dst + cnt then f (src + (k - dst)) else f k

/-- State accumulated by one `filter_elements` task: its view of `line_map`
and `distance` plus its local match counter `t->count`. -/
structure FilterTaskState where
  line_map : Nat → Nat
  distance : Nat → Nat
  count : Nat

/-- Body of the `filter_elements` loop (view.c) for one entry `i` of the
chunk starting at `start`: if the entry matches, its index is written at
`line_map[start + count]`, the levenshtein distance to the query is cached in
`distance[i]` when `config.levenshtein_sort` is set, and the local counter is
incremented. -/
def filter_elements_step (lev_sort_on : Bool) (p : Nat → Bool) (lev : Nat → Nat)
    (start : Nat) (acc : FilterTaskState) (i : Nat) : FilterTaskState :=
  if p i then
    { line_map := writeArr acc.line_map (start + acc.count) i
      distance := if lev_sort_on then writeArr acc.distance i (lev i) else acc.distance
      count := acc.count + 1 }
  else acc

/-- Loop of `filter_elements` over an arbitrary remaining index list,
starting from an arbitrary accumulated state (used to reason about the loop
by induction). -/
def filter_elements_from (lev_sort_on : Bool) (p : Nat → Bool) (lev : Nat → Nat)
    (base : Nat) (is : List Nat) (lm dist : Nat → Nat) (c : Nat) : FilterTaskState :=
  is.foldl (filter_elements_step lev_sort_on p lev base)
    { line_map := lm, distance := dist, count := c }

/-- One chunk task `filter_elements` (view.c): scan entries `start ≤ i < stop`
and pack the matching indices at the front of the chunk's slice of
`line_map`. -/
def filter_elements (lev_sort_on : Bool) (p : Nat → Bool) (lev : Nat → Nat)
    (start stop : Nat) (lm dist : Nat → Nat) : FilterTaskState :=
  filter_elements_from lev_sort_on p lev start
    (List.range' start (stop - start)) lm dist 0

/-- Run the chunk tasks of one filter pass in chunk order over the shared
`line_map`/`distance` arrays and collect the per-chunk match counts
`states[i].count`.  The real pool runs the tasks concurrently, but every task
writes only inside its own chunk slice, so the sequential composition is the
functional meaning of the parallel pass. -/
def run_filter_tasks (lev_sort_on : Bool) (p : Nat → Bool) (lev : Nat → Nat) :
    List (Nat × Nat) → (Nat → Nat) → (Nat → Nat) → (Nat → Nat) × (Nat → Nat) × List Nat
  | [], lm, dist => (lm, dist, [])
  | (st, sp) :: rest, lm, dist =>
    let t := filter_elements lev_sort_on p lev st sp lm dist
    let r := run_filter_tasks lev_sort_on p lev rest t.line_map t.distance
    (r.1, r.2.1, t.count :: r.2.2)

/-- Compaction loop of `rofi_view_refilter` (view.c): walk the chunks in
order; whenever the packed matches of a chunk do not already start at the
write cursor `j`, `memmove` them down to `j`; advance `j` by the chunk's
count.  Returns the compacted array and the final cursor (the new
`filtered_lines`). -/
def compact_chunks : List (Nat × Nat) → (Nat → Nat) → Nat → (Nat → Nat) × Nat
  | [], lm, j => (lm, j)
  | (st, c) :: rest, lm, j =>
    let lm1 := if j = st then lm else memmoveArr lm j st c
    compact_chunks rest lm1 (j + c)

/-- Chunk boundaries of one filter pass (view.c `rofi_view_refilter`):
`nt` chunks, chunk `i` covering `[i*steps, min num_lines ((i+1)*steps))` with
`steps = (num_lines + nt) / nt`. -/
def refilter_chunks (num_lines nt : Nat) : List (Nat × Nat) :=
  let steps := (num_lines + nt) / nt
  (List.range nt).map fun i => (i * steps, min num_lines ((i + 1) * steps))

/-- The first `n` cells of an array viewed as a list. -/
def array_take (f : Nat → Nat) (n : Nat) : List Nat :=
  (List.range n).map f

/-- Whole parallel filter pass of `rofi_view_refilter`: run one
`filter_elements` task per chunk, then compact the per-chunk match regions in
chunk order.  Returns the new `line_map`, `distance` and `filtered_lines`. -/
def filter_pass (lev_sort_on : Bool) (p : Nat → Bool) (lev : Nat → Nat)
    (num_lines nt : Nat) (lm dist : Nat → Nat) : (Nat → Nat) × (Nat → Nat) × Nat :=
  let chs := refilter_chunks num_lines nt
  let r := run_filter_tasks lev_sort_on p lev chs lm dist
  let pieces := (chs.map Prod.fst).zip r.2.2
  let c := compact_chunks pieces r.1 0
  (c.1, r.2.1, c.2)

/-- Comparator `lev_sort` (view.c): `distances[*a] - distances[*b]` as a C
`int`; a qsort comparator places `a` no later than `b` exactly when the
result is ≤ 0, i.e. when `distances[a] ≤ distances[b]`. -/
def lev_sort (distances : Nat → Nat) (a b : Nat) : Bool :=
  decide (distances a ≤ distances b)

/-- Filtering phase of `rofi_view_refilter` (view.c): with a non-empty query,
tokenize, run the chunked parallel match pass, compact, and — when
`config.levenshtein_sort` is set — stable-sort the filtered prefix of
`line_map` by cached distance (`g_qsort_with_data` with `lev_sort`; GLib's
`g_qsort_with_data` is a stable merge sort).  With an empty query, `line_map`
becomes the identity on `[0, num_lines)`.  `p i` is the external
`mode_token_match` of entry `i` against the current query tokens, and
`lev i` the external `levenshtein` distance of the query to entry `i`'s
completion text. -/
def refilter_filter_phase (cfg : RofiConfig) (p : Nat → Bool) (lev : Nat → Nat)
    (s : RofiViewState) : RofiViewState :=
  if 0 < s.text.length then
    let nt := max 1 (s.num_lines / 500)
    let r := filter_pass cfg.levenshtein_sort p lev s.num_lines nt s.line_map s.distance
    let lm :=
      if cfg.levenshtein_sort then
        let sorted := (array_take r.1 r.2.2).mergeSort (lev_sort r.2.1)
        fun k => if k < r.2.2 then sorted.getD k 0 else r.1 k
      else r.1
    { s with line_map := lm, distance := r.2.1, filtered_lines := r.2.2 }
  else
    { s with line_map := fun i => if i < s.num_lines then i else s.line_map i,
             filtered_lines := s.num_lines }

/-- Selection clamp at the end of `rofi_view_refilter` (view.c): clamp
`selected` to `filtered_lines - 1` when something is left, reset it to 0
otherwise. -/
def refilter_clamp_selected (s : RofiViewState) : RofiViewState :=
  if 0 < s.filtered_lines then
    { s with selected := min s.selected (s.filtered_lines - 1) }
  else
    { s with selected := 0 }

/-- Auto-select special case of `rofi_view_refilter` (view.c): when
`config.auto_select` is set, exactly one candidate is left and the unfiltered
set had more than one entry, accept that candidate immediately. -/
def refilter_auto_select (cfg : RofiConfig) (s : RofiViewState) : RofiViewState :=
  if cfg.auto_select = true ∧ s.filtered_lines = 1 ∧ 1 < s.num_lines then
    { s with selected_line := s.line_map s.selected, retv := .MENU_OK, quit := true }
  else s

/-- One full filter pass `rofi_view_refilter` (view.c): filter phase,
selection clamp, auto-select check, bookkeeping flags. -/
def rofi_view_refilter (cfg : RofiConfig) (p : Nat → Bool) (lev : Nat → Nat)
    (s : RofiViewState) : RofiViewState :=
  let s3 := refilter_auto_select cfg
    (refilter_clamp_selected (refilter_filter_phase cfg p lev s))
  { s3 with refilter := false, rchanged := true, update := true }

/-- Navigation `rofi_view_nav_page_next` (view.c). -/
def rofi_view_nav_page_next (s : RofiViewState) : RofiViewState :=
  if s.filtered_lines = 0 then s
  else
    let sel := s.selected + s.max_elements
    let sel := if s.filtered_lines ≤ sel then s.filtered_lines - 1 else sel
    { s with selected := sel, update := true }

/-- Navigation `rofi_view_nav_page_prev` (view.c). -/
def rofi_view_nav_page_prev (s : RofiViewState) : RofiViewState :=
  if s.selected < s.max_elements then { s with selected := 0, update := true }
  else { s with selected := s.selected - s.max_elements, update := true }

/-- Navigation `rofi_view_nav_right` (view.c): advance one column; at the
end, jump to the last element unless the current column index equals
`filtered_lines / max_rows`. -/
def rofi_view_nav_right (s : RofiViewState) : RofiViewState :=
  if s.filtered_lines = 0 then s
  else if s.selected + s.max_rows < s.filtered_lines then
    { s with selected := s.selected + s.max_rows, update := true }
  else if s.selected < s.filtered_lines - 1 then
    if s.selected / s.max_rows ≠ s.filtered_lines / s.max_rows then
      { s with selected := s.filtered_lines - 1, update := true }
    else s
  else s

/-- Navigation `rofi_view_nav_left` (view.c). -/
def rofi_view_nav_left (s : RofiViewState) : RofiViewState :=
  if s.max_rows ≤ s.selected then
    { s with selected := s.selected - s.max_rows, update := true }
  else s

/-- Navigation `rofi_view_nav_up` (view.c): wrap from 0 to the end, else
decrement (the two successive `if`s of the C code). -/
def rofi_view_nav_up (s : RofiViewState) : RofiViewState :=
  let sel := if s.selected = 0 then s.filtered_lines else s.selected
  let sel := if 0 < sel then sel - 1 else sel
  { s with selected := sel, update := true }

/-- Navigation `rofi_view_nav_down` (view.c): increment, wrapping from the
last index to 0. -/
def rofi_view_nav_down (s : RofiViewState) : RofiViewState :=
  if s.filtered_lines = 0 then s
  else
    { s with
      selected :=
        if s.selected < s.filtered_lines - 1 then
          min (s.filtered_lines - 1) (s.selected + 1)
        else 0,
      update := true }

/-- Navigation `rofi_view_nav_first` (view.c). -/
def rofi_view_nav_first (s : RofiViewState) : RofiViewState :=
  { s with selected := 0, update := true }

/-- Navigation `rofi_view_nav_last` (view.c). -/
def rofi_view_nav_last (s : RofiViewState) : RofiViewState :=
  if s.filtered_lines = 0 then s
  else { s with selected := s.filtered_lines - 1, update := true }

/-- Result of `rofi_view_calculate_rows_columns` (view.c). -/
structure RowsColumns where
  columns : Nat
  max_rows : Nat
  max_elements : Nat
  deriving DecidableEq, Repr

/-- Layout computation `rofi_view_calculate_rows_columns` (view.c), a function
of `config.fixed_num_lines`, `config.menu_columns`, `state->menu_lines` and
`state->num_lines`. -/
def rofi_view_calculate_rows_columns (fixed_num_lines : Bool)
    (menu_columns menu_lines num_lines : Nat) : RowsColumns :=
  let columns := menu_columns
  let max_elements := min (menu_lines * columns) num_lines
  let max_rows := min menu_lines
    ((num_lines + (columns - num_lines % columns) % columns) / columns)
  let max_rows := max 1 max_rows
  if fixed_num_lines then
    let max_elements := menu_lines * columns
    let max_rows := menu_lines
    let cm :=
      if num_lines < max_elements then
        let c := (num_lines + (max_rows - num_lines % max_rows) % max_rows) / max_rows
        (c, menu_lines * c)
      else (columns, max_elements)
    let columns := if cm.1 = 0 then 1 else cm.1
    { columns := columns, max_rows := max_rows, max_elements := cm.2 }
  else
    { columns := columns, max_rows := max_rows, max_elements := max_elements }

/-- Semantic actions tested by `abe_test_action` in
`rofi_view_keyboard_navigation` (view.c), in the order of the dispatch
chain. -/
inductive NavAction where
  | CANCEL
  | ROW_UP
  | ROW_TAB
  | ROW_DOWN
  | ROW_LEFT
  | ROW_RIGHT
  | PAGE_PREV
  | PAGE_NEXT
  | ROW_FIRST
  | ROW_LAST
  | ROW_SELECT
  deriving DecidableEq, Repr

/-- Keyboard navigation dispatch `rofi_view_keyboard_navigation` (view.c).
`abe a key` is the external `abe_test_action (a, modstate, key)` resolver
(the modifier state folded in), `completion` the external
`mode_get_completion`.  Returns the new state and whether the key was handled
(the C `return 1` / `return 0`).  Note that `state->prev_key = key` is
executed only on the fall-through path, after every handled branch has
already returned. -/
def rofi_view_keyboard_navigation (abe : NavAction → Nat → Bool)
    (completion : Nat → String) (key : Nat) (s : RofiViewState) :
    RofiViewState × Bool :=
  if abe .CANCEL key then
    ({ s with retv := .MENU_CANCEL, quit := true }, true)
  else if abe .ROW_UP key then (rofi_view_nav_up s, true)
  else if abe .ROW_TAB key then
    (if s.filtered_lines = 1 then
      { s with retv := .MENU_OK, selected_line := s.line_map s.selected, quit := true }
    else if s.filtered_lines = 0 ∧ key = s.prev_key then
      { s with retv := .MENU_NEXT, selected_line := 0, quit := true }
    else rofi_view_nav_down s, true)
  else if abe .ROW_DOWN key then (rofi_view_nav_down s, true)
  else if abe .ROW_LEFT key then (rofi_view_nav_left s, true)
  else if abe .ROW_RIGHT key then (rofi_view_nav_right s, true)
  else if abe .PAGE_PREV key then (rofi_view_nav_page_prev s, true)
  else if abe .PAGE_NEXT key then (rofi_view_nav_page_next s, true)
  else if abe .ROW_FIRST key then (rofi_view_nav_first s, true)
  else if abe .ROW_LAST key then (rofi_view_nav_last s, true)
  else if abe .ROW_SELECT key then
    (if s.selected < s.filtered_lines then
      { s with text := completion (s.line_map s.selected),
               update := true, refilter := true }
    else s, true)
  else ({ s with prev_key := key }, false)

/-- Modelled from the spec: the return contract of `textbox_keypress`
(textbox.c is not among the provided sources).  A negative return code means
the entry was committed/accepted; the auxiliary-modifier ("custom") accept
variant is reported as -2, the plain accept as -1; 1 means the text changed,
2 means only a redraw is needed. -/
def accept_modified_variant (rc : Int) : Bool :=
  decide (rc = -2)

/-- Tail of the `XCB_KEY_PRESS` case of `rofi_view_mainloop_iter` (view.c):
the key was not absorbed by any earlier dispatch rule and was handed to
`textbox_keypress`, which returned `rc`.  On `rc < 0` (accept): with a valid
selection return `MENU_OK` and the selected entry's source index, otherwise
`MENU_CUSTOM_INPUT`; or the `MENU_CUSTOM_ACTION` bit in when `rc = -2`; quit.
`selected_line` is first preset to `UINT32_MAX` (4294967295 here), as in the
C code.  The assignments `state->retv = ...` replace the whole bitmask,
clearing any previous `MENU_CUSTOM_ACTION` bit. -/
def rofi_view_process_keypress_result (rc : Int) (s : RofiViewState) : RofiViewState :=
  if s.quit then s
  else if rc < 0 then
    let s0 := { s with selected_line := 4294967295 }
    let s1 :=
      if s0.selected < s0.filtered_lines then
        { s0 with selected_line := s0.line_map s0.selected, retv := .MENU_OK,
                  custom_action := false }
      else
        { s0 with retv := .MENU_CUSTOM_INPUT, custom_action := false }
    let s2 := if rc = -2 then { s1 with custom_action := true } else s1
    { s2 with quit := true }
  else if rc = 1 then { s with refilter := true, update := true }
  else if rc = 2 then { s with update := true }
  else s

/-- Searchable text fields of a drun entry (`DRunModeEntry`, drun.c): the C
code null-checks `name` and `generic_name` before matching but uses `exec`
unconditionally. -/
structure DRunModeEntry where
  name : Option String
  generic_name : Option String
  exec : String

/-- The per-token, per-field match `drun_token_match` performs (drun.c): it
wraps the single token in a one-element list `ftokens` and calls the helper
`token_match` (helper.c, external to the provided sources) on one text
field; `tm tok field` stands for that call. -/
def drun_field_test (tm : String → String → Bool) (e : DRunModeEntry)
    (tok : String) : Bool :=
  (match e.name with
   | some n => tm tok n
   | none => false)
  || (match e.generic_name with
      | some g => tm tok g
      | none => false)
  || tm tok e.exec

/-- Match predicate `drun_token_match` (drun.c): every token must be
satisfied by at least one of the entry's fields (name, generic name,
executable); the loop aborts as soon as one token fails. -/
def drun_token_match (tm : String → String → Bool) (e : DRunModeEntry)
    (tokens : List String) : Bool :=
  tokens.all fun t => drun_field_test tm e t

/-- Chunk well-formedness: each chunk starts no earlier than the bound and
ends (as recorded in its `stop` field) no earlier either, and the chunks
after it live above its `stop`.  The chunk lists built by
`refilter_chunks` satisfy this. -/
def ChunksOrdered : Nat → List (Nat × Nat) → Prop
  | _, [] => True
  | lo, (st, sp) :: rest => lo ≤ st ∧ lo ≤ sp ∧ ChunksOrdered sp rest

/-- Well-separatedness of the packed match regions handed to compaction:
every non-empty region starts at or after the bound, and the regions after
it start at or after its end.  Empty regions are unconstrained. -/
def PiecesSep : Nat → List (Nat × List Nat) → Prop
  | _, [] => True
  | j, (st, M) :: rest =>
    (M = [] ∧ PiecesSep j rest) ∨ (j ≤ st ∧ PiecesSep (st + M.length) rest)

/-- The array `lm` holds each region's match list packed at the region's
start. -/
def RegionsHold (lm : Nat → Nat) : List (Nat × List Nat) → Prop
  | [] => True
  | (st, M) :: rest =>
    (∀ k, k < M.length → lm (st + k) = M.getD k 0) ∧ RegionsHold lm rest

/-- Frame property of a selection-mutation operation: every field of the
view state except `selected` and the redraw flag `update` is unchanged. -/
def NavPreserves (f : RofiViewState → RofiViewState) : Prop :=
  ∀ s : RofiViewState,
    (f s).text = s.text ∧
    (f s).num_lines = s.num_lines ∧
    (f s).line_map = s.line_map ∧
    (f s).distance = s.distance ∧
    (f s).filtered_lines = s.filtered_lines ∧
    (f s).selected_line = s.selected_line ∧
    (f s).max_rows = s.max_rows ∧
    (f s).columns = s.columns ∧
    (f s).max_elements = s.max_elements ∧
    (f s).menu_lines = s.menu_lines ∧
    (f s).retv = s.retv ∧
    (f s).custom_action = s.custom_action ∧
    (f s).quit = s.quit ∧
    (f s).refilter = s.refilter ∧
    (f s).rchanged = s.rchanged ∧
    (f s).prev_key = s.prev_key

/-- Ceiling division on naturals, used to state the spec's
`ceil(count / columns)`. -/
def nat_ceil_div (a b : Nat) : Nat :=
  (a + b - 1) / b

/-- Modelled from the spec's words for the claim about
`rofi_view_calculate_rows_columns`: `max_rows = max(1, ceil(count / columns))`
with no further cap. -/
def spec_max_rows (count columns : Nat) : Nat :=
  max 1 (nat_ceil_div count columns)

/-- Modelled from the spec's words for the Right-navigation claim: the index
of the last occupied column of the grid. -/
def spec_last_occupied_column (filtered rows : Nat) : Nat :=
  (filtered - 1) / rows

/-- A baseline concrete view state used by the concrete witness and
counterexample instances below. -/
def sBase : RofiViewState :=
  { text := ""
    num_lines := 0
    line_map := fun _ => 0
    distance := fun _ => 0
    filtered_lines := 0
    selected := 0
    selected_line := 0
    max_rows := 1
    columns := 1
    max_elements := 1
    menu_lines := 1
    retv := .MENU_CANCEL
    custom_action := false
    quit := false
    update := false
    refilter := true
    rchanged := false
    prev_key := 0 }

/-- Concrete configuration without ranking. -/
def cfgPlain : RofiConfig := ⟨false, false, false, false, 1, 1⟩

/-- Concrete configuration with levenshtein ranking. -/
def cfgRank : RofiConfig := ⟨false, true, false, false, 1, 1⟩

/-- Concrete configuration with auto-select. -/
def cfgAuto : RofiConfig := ⟨false, false, true, false, 1, 1⟩

/-- Concrete token-match predicate: multiples of 3 match. -/
def pMod3 : Nat → Bool := fun i => i % 3 == 0

/-- Concrete token-match predicate: only entry 2 matches. -/
def pEq2 : Nat → Bool := fun i => i == 2

/-- Concrete distance oracle. -/
def levW : Nat → Nat := fun i => 10 - i

/-- Concrete nine-entry state with a non-empty query. -/
def sW : RofiViewState := { sBase with text := "x", num_lines := 9, selected := 7 }

/-- Concrete five-entry state with a non-empty query. -/
def sW1 : RofiViewState := { sBase with text := "x", num_lines := 5, selected := 3 }

/-- Concrete state whose grid has two full columns of two rows
(filtered_lines = 4, max_rows = 2) with the selection at the top of the last
column. -/
def s4 : RofiViewState := { sBase with filtered_lines := 4, max_rows := 2, selected := 2 }

/-- Concrete state for the double-press scenario: nothing matches the query
and the previously recorded key is 50 (the last key press that matched no
bound action, e.g. the last typed character). -/
def s6 : RofiViewState := { sBase with filtered_lines := 0, prev_key := 50 }

/-- Concrete resolver binding key 9 to the advance (row-tab) action and
nothing else. -/
def abe6 : NavAction → Nat → Bool := fun a k => a == .ROW_TAB && k == 9

/-- Concrete completion oracle. -/
def comp6 : Nat → String := fun _ => ""

/-- Concrete state with three filtered lines and an in-range selection. -/
def s8 : RofiViewState :=
  { sBase with filtered_lines := 3, selected := 1, text := "qq",
               line_map := fun i => 2 * i }

/-- Concrete state with a partially filled last column
(filtered_lines = 7, max_rows = 2). -/
def sNavR : RofiViewState := { sBase with filtered_lines := 7, max_rows := 2, selected := 3 }

/-! Behaviour of a single `filter_elements` task. -/

theorem filter_elements_from_spec (lev_sort_on : Bool) (p : Nat → Bool)
    (lev : Nat → Nat) (base : Nat) (is : List Nat) :
    ∀ (lm dist : Nat → Nat) (c : Nat),
      (filter_elements_from lev_sort_on p lev base is lm dist c).count
          = c + (is.filter p).length
      ∧ (∀ k, k < (is.filter p).length →
          (filter_elements_from lev_sort_on p lev base is lm dist c).line_map
              (base + c + k) = (is.filter p).getD k 0)
      ∧ (∀ m, m < base + c ∨ base + c + (is.filter p).length ≤ m →
          (filter_elements_from lev_sort_on p lev base is lm dist c).line_map m = lm m)
      ∧ (∀ i, i ∉ is →
          (filter_elements_from lev_sort_on p lev base is lm dist c).distance i = dist i)
      ∧ (∀ i, i ∈ is →
          (filter_elements_from lev_sort_on p lev base is lm dist c).distance i
            = if lev_sort_on = true ∧ p i = true then lev i else dist i) := by
  induction is with
  | nil =>
    intro lm dist c
    simp [filter_elements_from]
  | cons a tl ih =>
    intro lm dist c
    by_cases hp : p a = true
    · have hstep : filter_elements_from lev_sort_on p lev base (a :: tl) lm dist c
          = filter_elements_from lev_sort_on p lev base tl
              (writeArr lm (base + c) a)
              (if lev_sort_on then writeArr dist a (lev a) else dist) (c + 1) := by
        simp [filter_elements_from, filter_elements_step, hp]
      obtain ⟨ihc, ihpos, ihpres, ihnd, ihd⟩ :=
        ih (writeArr lm (base + c) a)
          (if lev_sort_on then writeArr dist a (lev a) else dist) (c + 1)
      have hfil : (a :: tl).filter p = a :: tl.filter p := List.filter_cons_of_pos hp
      refine ⟨?_, ?_, ?_, ?_, ?_⟩
      · rw [hstep, ihc, hfil]
        simp only [List.length_cons]
        omega
      · intro k hk
        rw [hstep, hfil]
        match k with
        | 0 =>
          have := ihpres (base + c) (Or.inl (by omega))
          simpa [writeArr] using this
        | k + 1 =>
          have hk' : k < (tl.filter p).length := by
            rw [hfil] at hk; simpa using Nat.lt_of_succ_lt_succ hk
          have := ihpos k hk'
          have harith : base + c + (k + 1) = base + (c + 1) + k := by omega
          rw [harith, this]
          simp
      · intro m hm
        rw [hstep]
        rcases hm with hm | hm
        · have := ihpres m (Or.inl (by omega))
          rw [this, writeArr, if_neg (by omega)]
        · rw [hfil] at hm
          simp only [List.length_cons] at hm
          have := ihpres m (Or.inr (by omega))
          rw [this, writeArr, if_neg (by omega)]
      · intro i hi
        have hia : i ≠ a := fun h => hi (h ▸ List.mem_cons_self a tl)
        have hitl : i ∉ tl := fun h => hi (List.mem_cons_of_mem a h)
        rw [hstep, ihnd i hitl]
        by_cases hs : lev_sort_on <;> simp [hs, writeArr, hia]
      · intro i hi
        by_cases hitl : i ∈ tl
        · rw [hstep, ihd i hitl]
          by_cases hcond : lev_sort_on = true ∧ p i = true
          · rw [if_pos hcond, if_pos hcond]
          · rw [if_neg hcond, if_neg hcond]
            by_cases hia : i = a
            · have hs : lev_sort_on = false := by
                rcases Bool.eq_false_or_eq_true lev_sort_on with h | h
                · exact absurd ⟨h, hia ▸ hp⟩ hcond
                · exact h
              simp [hs]
            · by_cases hs : lev_sort_on <;> simp [hs, writeArr, hia]
        · have hia : i = a := by
            rcases List.mem_cons.mp hi with h | h
            · exact h
            · exact absurd h hitl
          subst hia
          rw [hstep, ihnd i hitl]
          by_cases hs : lev_sort_on <;> simp [hs, writeArr, hp]
    · have hp' : p a = false := by simpa using hp
      have hstep : filter_elements_from lev_sort_on p lev base (a :: tl) lm dist c
          = filter_elements_from lev_sort_on p lev base tl lm dist c := by
        simp [filter_elements_from, filter_elements_step, hp']
      obtain ⟨ihc, ihpos, ihpres, ihnd, ihd⟩ := ih lm dist c
      have hfil : (a :: tl).filter p = tl.filter p := List.filter_cons_of_neg (by simp [hp'])
      refine ⟨?_, ?_, ?_, ?_, ?_⟩
      · rw [hstep, ihc, hfil]
      · intro k hk; rw [hfil] at hk; rw [hstep, hfil]; exact ihpos k hk
      · intro m hm; rw [hfil] at hm; rw [hstep]; exact ihpres m hm
      · intro i hi
        have hitl : i ∉ tl := fun h => hi (List.mem_cons_of_mem a h)
        rw [hstep]; exact ihnd i hitl
      · intro i hi
        by_cases hitl : i ∈ tl
        · rw [hstep]; exact ihd i hitl
        · have hia : i = a := by
            rcases List.mem_cons.mp hi with h | h
            · exact h
            · exact absurd h hitl
          subst hia
          rw [hstep, ihnd i hitl, if_neg (by simp [hp'])]

theorem filter_elements_spec (lev_sort_on : Bool) (p : Nat → Bool) (lev : Nat → Nat)
    (st sp : Nat) (lm dist : Nat → Nat) :
    (filter_elements lev_sort_on p lev st sp lm dist).count
        = ((List.range' st (sp - st)).filter p).length
    ∧ ((List.range' st (sp - st)).filter p).length ≤ sp - st
    ∧ (∀ k, k < ((List.range' st (sp - st)).filter p).length →
        (filter_elements lev_sort_on p lev st sp lm dist).line_map (st + k)
          = ((List.range' st (sp - st)).filter p).getD k 0)
    ∧ (∀ m, m < st ∨ st + ((List.range' st (sp - st)).filter p).length ≤ m →
        (filter_elements lev_sort_on p lev st sp lm dist).line_map m = lm m)
    ∧ (∀ i, i < st ∨ sp ≤ i →
        (filter_elements lev_sort_on p lev st sp lm dist).distance i = dist i)
    ∧ (∀ i, st ≤ i → i < sp →
        (filter_elements lev_sort_on p lev st sp lm dist).distance i
          = if lev_sort_on = true ∧ p i = true then lev i else dist i) := by
  obtain ⟨hc, hpos, hpres, hnd, hd⟩ :=
    filter_elements_from_spec lev_sort_on p lev st (List.range' st (sp - st)) lm dist 0
  have hlen : (List.range' st (sp - st)).length = sp - st := by simp
  refine ⟨by simpa using hc, ?_, ?_, ?_, ?_, ?_⟩
  · calc ((List.range' st (sp - st)).filter p).length
        ≤ (List.range' st (sp - st)).length := List.length_filter_le _ _
      _ = sp - st := hlen
  · intro k hk
    have := hpos k hk
    simpa using this
  · intro m hm
    exact hpres m (by omega)
  · intro i hi
    refine hnd i ?_
    rw [List.mem_range'_1]
    omega
  · intro i h1 h2
    refine hd i ?_
    rw [List.mem_range'_1]
    omega

theorem run_filter_tasks_spec (lev_sort_on : Bool) (p : Nat → Bool) (lev : Nat → Nat) :
    ∀ (chs : List (Nat × Nat)) (lm dist : Nat → Nat) (lo : Nat),
      ChunksOrdered lo chs →
      (run_filter_tasks lev_sort_on p lev chs lm dist).2.2
          = chs.map (fun q => ((List.range' q.1 (q.2 - q.1)).filter p).length)
      ∧ RegionsHold (run_filter_tasks lev_sort_on p lev chs lm dist).1
          (chs.map fun q => (q.1, (List.range' q.1 (q.2 - q.1)).filter p))
      ∧ (∀ m, m < lo → (run_filter_tasks lev_sort_on p lev chs lm dist).1 m = lm m)
      ∧ (∀ i, i ∉ (chs.map fun q => List.range' q.1 (q.2 - q.1)).flatten →
          (run_filter_tasks lev_sort_on p lev chs lm dist).2.1 i = dist i)
      ∧ (∀ i, i ∈ (chs.map fun q => List.range' q.1 (q.2 - q.1)).flatten →
          (run_filter_tasks lev_sort_on p lev chs lm dist).2.1 i
            = if lev_sort_on = true ∧ p i = true then lev i else dist i) := by
  intro chs
  induction chs with
  | nil =>
    intro lm dist lo _
    simp [run_filter_tasks, RegionsHold]
  | cons hd0 rest ih =>
    obtain ⟨st, sp⟩ := hd0
    intro lm dist lo hord
    obtain ⟨hlost, hlosp, hrest⟩ : lo ≤ st ∧ lo ≤ sp ∧ ChunksOrdered sp rest := hord
    obtain ⟨tc, tlen, tpos, tpres, tnd, td⟩ :=
      filter_elements_spec lev_sort_on p lev st sp lm dist
    obtain ⟨ihc, ihreg, ihpres, ihnd, ihd⟩ :=
      ih (filter_elements lev_sort_on p lev st sp lm dist).line_map
        (filter_elements lev_sort_on p lev st sp lm dist).distance sp hrest
    have hrun : run_filter_tasks lev_sort_on p lev ((st, sp) :: rest) lm dist
        = ((run_filter_tasks lev_sort_on p lev rest
              (filter_elements lev_sort_on p lev st sp lm dist).line_map
              (filter_elements lev_sort_on p lev st sp lm dist).distance).1,
           (run_filter_tasks lev_sort_on p lev rest
              (filter_elements lev_sort_on p lev st sp lm dist).line_map
              (filter_elements lev_sort_on p lev st sp lm dist).distance).2.1,
           (filter_elements lev_sort_on p lev st sp lm dist).count ::
           (run_filter_tasks lev_sort_on p lev rest
              (filter_elements lev_sort_on p lev st sp lm dist).line_map
              (filter_elements lev_sort_on p lev st sp lm dist).distance).2.2) := rfl
    rw [hrun]
    refine ⟨?_, ?_, ?_, ?_, ?_⟩
    · simp only [List.map_cons]
      exact congrArg₂ List.cons tc ihc
    · simp only [List.map_cons]
      refine ⟨?_, ihreg⟩
      intro k hk
      have hks : st + k < sp := by omega
      rw [ihpres (st + k) hks]
      exact tpos k hk
    · intro m hm
      rw [ihpres m (by omega)]
      exact tpres m (Or.inl (by omega))
    · intro i hi
      simp only [List.map_cons, List.flatten_cons, List.mem_append] at hi
      push_neg at hi
      obtain ⟨hi1, hi2⟩ := hi
      rw [ihnd i hi2]
      refine tnd i ?_
      rw [List.mem_range'_1] at hi1
      omega
    · intro i hi
      simp only [List.map_cons, List.flatten_cons, List.mem_append] at hi
      by_cases hi2 : i ∈ (rest.map fun q => List.range' q.1 (q.2 - q.1)).flatten
      · rw [ihd i hi2]
        by_cases hcond : lev_sort_on = true ∧ p i = true
        · rw [if_pos hcond, if_pos hcond]
        · rw [if_neg hcond, if_neg hcond]
          by_cases hin : st ≤ i ∧ i < sp
          · rw [td i hin.1 hin.2, if_neg hcond]
          · exact tnd i (by omega)
      · have hi1 : i ∈ List.range' st (sp - st) := by
          rcases hi with h | h
          · exact h
          · exact absurd h hi2
        rw [List.mem_range'_1] at hi1
        rw [ihnd i hi2]
        exact td i hi1.1 (by omega)

/-! Behaviour of the compaction phase. -/

theorem RegionsHold_congr :
    ∀ (pieces : List (Nat × List Nat)) (lm lm' : Nat → Nat),
      (∀ m, lm' m = lm m) → RegionsHold lm pieces → RegionsHold lm' pieces := by
  intro pieces
  induction pieces with
  | nil => intro lm lm' _ _; trivial
  | cons q rest ih =>
    obtain ⟨st, M⟩ := q
    intro lm lm' h hr
    exact ⟨fun k hk => by rw [h]; exact hr.1 k hk, ih lm lm' h hr.2⟩

theorem PiecesSep_anti :
    ∀ (pieces : List (Nat × List Nat)) (a b : Nat),
      b ≤ a → PiecesSep a pieces → PiecesSep b pieces := by
  intro pieces
  induction pieces with
  | nil => intro a b _ _; trivial
  | cons q rest ih =>
    obtain ⟨st, M⟩ := q
    intro a b hba hsep
    rcases hsep with ⟨hM, hsep⟩ | ⟨hle, hsep⟩
    · exact Or.inl ⟨hM, ih a b hba hsep⟩
    · exact Or.inr ⟨le_trans hba hle, hsep⟩

theorem RegionsHold_preserve :
    ∀ (pieces : List (Nat × List Nat)) (b : Nat) (lm lm' : Nat → Nat),
      PiecesSep b pieces → RegionsHold lm pieces →
      (∀ m, b ≤ m → lm' m = lm m) → RegionsHold lm' pieces := by
  intro pieces
  induction pieces with
  | nil => intro b lm lm' _ _ _; trivial
  | cons q rest ih =>
    obtain ⟨st, M⟩ := q
    intro b lm lm' hsep hreg h
    rcases hsep with ⟨hM, hsep⟩ | ⟨hle, hsep⟩
    · refine ⟨?_, ih b lm lm' hsep hreg.2 h⟩
      intro k hk
      rw [hM] at hk
      simp at hk
    · refine ⟨?_, ih (st + M.length) lm lm' hsep hreg.2 ?_⟩
      · intro k hk
        rw [h (st + k) (by omega)]
        exact hreg.1 k hk
      · intro m hm
        exact h m (by omega)

theorem compact_chunks_spec :
    ∀ (pieces : List (Nat × List Nat)) (lm : Nat → Nat) (j : Nat),
      PiecesSep j pieces → RegionsHold lm pieces →
      (compact_chunks (pieces.map fun q => (q.1, q.2.length)) lm j).2
          = j + (pieces.map fun q => q.2).flatten.length
      ∧ (∀ m, m < j →
          (compact_chunks (pieces.map fun q => (q.1, q.2.length)) lm j).1 m = lm m)
      ∧ (∀ k, k < (pieces.map fun q => q.2).flatten.length →
          (compact_chunks (pieces.map fun q => (q.1, q.2.length)) lm j).1 (j + k)
            = (pieces.map fun q => q.2).flatten.getD k 0) := by
  intro pieces
  induction pieces with
  | nil =>
    intro lm j _ _
    simp [compact_chunks]
  | cons q rest ih =>
    obtain ⟨st, M⟩ := q
    intro lm j hsep hreg
    have hstep : compact_chunks (((st, M) :: rest).map fun q => (q.1, q.2.length)) lm j
        = compact_chunks (rest.map fun q => (q.1, q.2.length))
            (if j = st then lm else memmoveArr lm j st M.length) (j + M.length) := rfl
    set lm1 := if j = st then lm else memmoveArr lm j st M.length with hlm1
    have ha : ∀ m, m < j → lm1 m = lm m := by
      intro m hm
      rw [hlm1]
      split
      · rfl
      · rw [memmoveArr, if_neg (by omega)]
    have hb : ∀ m, j + M.length ≤ m → lm1 m = lm m := by
      intro m hm
      rw [hlm1]
      split
      · rfl
      · rw [memmoveArr, if_neg (by omega)]
    have hc : ∀ k, k < M.length → lm1 (j + k) = M.getD k 0 := by
      intro k hk
      rw [hlm1]
      split
      · rename_i hj
        rw [hj]
        exact hreg.1 k hk
      · rw [memmoveArr, if_pos (by omega)]
        have : j + k - j = k := by omega
        rw [this]
        exact hreg.1 k hk
    rcases hsep with ⟨hM, hsep'⟩ | ⟨hjst, hsep'⟩
    · subst hM
      have hall : ∀ m, lm1 m = lm m := by
        intro m
        by_cases hm : m < j
        · exact ha m hm
        · exact hb m (by simpa using Nat.le_of_not_lt hm)
      obtain ⟨iht, ihp, ihpre⟩ := ih lm1 (j + ([] : List Nat).length)
        (by simpa using hsep')
        (RegionsHold_congr rest lm lm1 hall hreg.2)
      rw [hstep]
      refine ⟨?_, ?_, ?_⟩
      · rw [iht]; simp
      · intro m hm
        rw [ihp m (by simpa using hm)]
        exact hall m
      · intro k hk
        simp only [List.map_cons, List.flatten_cons, List.nil_append] at hk ⊢
        simpa using ihpre k (by simpa using hk)
    · have hrest_reg : RegionsHold lm1 rest := by
        refine RegionsHold_preserve rest (st + M.length) lm lm1 hsep' hreg.2 ?_
        intro m hm
        exact hb m (by omega)
      have hrest_sep : PiecesSep (j + M.length) rest :=
        PiecesSep_anti rest (st + M.length) (j + M.length) (by omega) hsep'
      obtain ⟨iht, ihp, ihpre⟩ := ih lm1 (j + M.length) hrest_sep hrest_reg
      rw [hstep]
      refine ⟨?_, ?_, ?_⟩
      · rw [iht]
        simp only [List.map_cons, List.flatten_cons, List.length_append]
        omega
      · intro m hm
        rw [ihp m (by omega)]
        exact ha m hm
      · intro k hk
        simp only [List.map_cons, List.flatten_cons, List.length_append] at hk
        simp only [List.map_cons, List.flatten_cons]
        by_cases hkM : k < M.length
        · rw [ihp (j + k) (by omega), hc k hkM]
          rw [List.getD_append _ _ _ _ hkM]
        · have h1 : j + k = (j + M.length) + (k - M.length) := by omega
          rw [h1, ihpre (k - M.length) (by omega)]
          rw [List.getD_append_right _ _ _ _ (by omega)]

/-! Structure of the chunk list built by `rofi_view_refilter`. -/

theorem nt_steps_ge (n nt : Nat) (h : 1 ≤ nt) : n ≤ nt * ((n + nt) / nt) := by
  have h1 : nt * ((n + nt) / nt) + (n + nt) % nt = n + nt := Nat.div_add_mod (n + nt) nt
  have h2 : (n + nt) % nt < nt := Nat.mod_lt _ (by omega)
  omega

theorem refilter_chunks_tail_ordered (n steps : Nat) :
    ∀ (k i : Nat),
      ChunksOrdered (min n (i * steps))
        ((List.range' i k).map fun jx => (jx * steps, min n ((jx + 1) * steps))) := by
  intro k
  induction k with
  | zero => intro i; trivial
  | succ k ih =>
    intro i
    rw [List.range'_succ, List.map_cons]
    have hmul : i * steps ≤ (i + 1) * steps :=
      Nat.mul_le_mul_right steps (by omega)
    refine ⟨Nat.min_le_right _ _, ?_, ih (i + 1)⟩
    exact le_min (Nat.min_le_left _ _) (le_trans (Nat.min_le_right _ _) hmul)

theorem refilter_chunks_tail_sep (p : Nat → Bool) (n steps : Nat) :
    ∀ (k i : Nat),
      PiecesSep (min n (i * steps))
        (((List.range' i k).map fun jx => (jx * steps, min n ((jx + 1) * steps))).map
          fun q => (q.1, (List.range' q.1 (q.2 - q.1)).filter p)) := by
  intro k
  induction k with
  | zero => intro i; trivial
  | succ k ih =>
    intro i
    rw [List.range'_succ, List.map_cons, List.map_cons]
    dsimp only
    have hmul : i * steps ≤ (i + 1) * steps :=
      Nat.mul_le_mul_right steps (by omega)
    have hmono : min n (i * steps) ≤ min n ((i + 1) * steps) :=
      le_min (Nat.min_le_left _ _) (le_trans (Nat.min_le_right _ _) hmul)
    by_cases hM :
        (List.range' (i * steps) (min n ((i + 1) * steps) - i * steps)).filter p = []
    · exact Or.inl ⟨hM, PiecesSep_anti _ _ _ hmono (ih (i + 1))⟩
    · have hlen1 : 0 <
          ((List.range' (i * steps) (min n ((i + 1) * steps) - i * steps)).filter p).length :=
        List.length_pos.mpr hM
      have hlen2 :
          ((List.range' (i * steps) (min n ((i + 1) * steps) - i * steps)).filter p).length
            ≤ min n ((i + 1) * steps) - i * steps := by
        calc _ ≤ (List.range' (i * steps) (min n ((i + 1) * steps) - i * steps)).length :=
              List.length_filter_le _ _
          _ = min n ((i + 1) * steps) - i * steps := by simp
      have hstlt : i * steps < min n ((i + 1) * steps) := by omega
      have hstn : i * steps ≤ n := by
        have := Nat.min_le_left n ((i + 1) * steps)
        omega
      refine Or.inr ⟨?_, ?_⟩
      · rw [Nat.min_eq_right hstn]
      · refine PiecesSep_anti _ (min n ((i + 1) * steps)) _ (by omega) (ih (i + 1))

theorem refilter_chunks_tail_flatten (n steps : Nat) :
    ∀ (k i : Nat),
      (((List.range' i k).map fun jx => (jx * steps, min n ((jx + 1) * steps))).map
          fun q => List.range' q.1 (q.2 - q.1)).flatten
        = List.range' (min n (i * steps)) (min n ((i + k) * steps) - min n (i * steps)) := by
  intro k
  induction k with
  | zero =>
    intro i
    simp
  | succ k ih =>
    intro i
    rw [List.range'_succ, List.map_cons, List.map_cons, List.flatten_cons, ih (i + 1)]
    have hmul : i * steps ≤ (i + 1) * steps :=
      Nat.mul_le_mul_right steps (by omega)
    have hmul2 : (i + 1) * steps ≤ (i + 1 + k) * steps :=
      Nat.mul_le_mul_right steps (by omega)
    have hidx : i + 1 + k = i + (k + 1) := by omega
    rw [hidx]
    by_cases hst : i * steps ≤ n
    · have hm0 : min n (i * steps) = i * steps := Nat.min_eq_right hst
      have hm1 : i * steps ≤ min n ((i + 1) * steps) := le_min hst hmul
      have hm2 : min n ((i + 1) * steps) ≤ min n ((i + (k + 1)) * steps) := by
        rw [← hidx]
        exact le_min (Nat.min_le_left _ _) (le_trans (Nat.min_le_right _ _) hmul2)
      have happ := List.range'_append (i * steps) (min n ((i + 1) * steps) - i * steps)
        (min n ((i + (k + 1)) * steps) - min n ((i + 1) * steps)) 1
      rw [one_mul] at happ
      have harg : i * steps + (min n ((i + 1) * steps) - i * steps)
          = min n ((i + 1) * steps) := by omega
      rw [harg] at happ
      rw [happ, hm0]
      congr 1
      omega
    · have hgt : n < i * steps := by omega
      have hm0 : min n (i * steps) = n := Nat.min_eq_left (by omega)
      have hm1 : min n ((i + 1) * steps) = n := Nat.min_eq_left (by omega)
      have hm2 : min n ((i + (k + 1)) * steps) = n := by
        rw [← hidx]
        exact Nat.min_eq_left (by omega)
      rw [hm0, hm1, hm2]
      simp [Nat.sub_eq_zero_of_le (le_of_lt hgt)]

theorem filter_pass_spec (lev_sort_on : Bool) (p : Nat → Bool) (lev : Nat → Nat)
    (n nt : Nat) (lm dist : Nat → Nat) (hnt : 1 ≤ nt) :
    (filter_pass lev_sort_on p lev n nt lm dist).2.2 = ((List.range n).filter p).length
    ∧ array_take (filter_pass lev_sort_on p lev n nt lm dist).1
        (filter_pass lev_sort_on p lev n nt lm dist).2.2 = (List.range n).filter p
    ∧ (∀ i, i < n → (filter_pass lev_sort_on p lev n nt lm dist).2.1 i
        = if lev_sort_on = true ∧ p i = true then lev i else dist i)
    ∧ (∀ i, n ≤ i → (filter_pass lev_sort_on p lev n nt lm dist).2.1 i = dist i) := by
  set stp := (n + nt) / nt with hstp
  set chs := refilter_chunks n nt with hchs
  set run := run_filter_tasks lev_sort_on p lev chs lm dist with hrunDef
  set pieces := (chs.map Prod.fst).zip run.2.2 with hpiecesDef
  set c := compact_chunks pieces run.1 0 with hcDef
  have hfp : filter_pass lev_sort_on p lev n nt lm dist = (c.1, run.2.1, c.2) := rfl
  have hchs_eq : chs
      = (List.range' 0 nt).map fun i => (i * stp, min n ((i + 1) * stp)) := by
    rw [hchs, hstp]
    simp [refilter_chunks, List.range_eq_range']
  have hord : ChunksOrdered 0 chs := by
    rw [hchs_eq]
    have := refilter_chunks_tail_ordered n stp nt 0
    simpa using this
  have hsep : PiecesSep 0
      (chs.map fun q => (q.1, (List.range' q.1 (q.2 - q.1)).filter p)) := by
    rw [hchs_eq]
    have := refilter_chunks_tail_sep p n stp nt 0
    simpa using this
  have hflatEff : (chs.map fun q => List.range' q.1 (q.2 - q.1)).flatten
      = List.range n := by
    rw [hchs_eq]
    have := refilter_chunks_tail_flatten n stp nt 0
    simp only [Nat.zero_mul, Nat.min_zero, Nat.zero_add, Nat.sub_zero] at this
    rw [this, Nat.min_eq_left (nt_steps_ge n nt hnt), List.range_eq_range']
  obtain ⟨hcnt, hreg, _, hnd, hd⟩ :=
    run_filter_tasks_spec lev_sort_on p lev chs lm dist 0 hord
  have hpieces_eq : pieces
      = (chs.map fun q => (q.1, (List.range' q.1 (q.2 - q.1)).filter p)).map
          fun q => (q.1, q.2.length) := by
    rw [hpiecesDef, ← hrunDef] at *
    rw [hcnt, List.zip_map', List.map_map]
    rfl
  obtain ⟨hctot, _, hcpre⟩ :=
    compact_chunks_spec (chs.map fun q => (q.1, (List.range' q.1 (q.2 - q.1)).filter p))
      run.1 0 hsep hreg
  rw [← hpieces_eq, ← hcDef] at hctot hcpre
  have hflatM :
      ((chs.map fun q => (q.1, (List.range' q.1 (q.2 - q.1)).filter p)).map
        fun q => q.2).flatten = (List.range n).filter p := by
    rw [List.map_map]
    have hcomp :
        ((fun q : Nat × List Nat => q.2) ∘
          fun q : Nat × Nat => (q.1, (List.range' q.1 (q.2 - q.1)).filter p))
          = fun q : Nat × Nat => (List.range' q.1 (q.2 - q.1)).filter p := rfl
    rw [hcomp]
    have : (chs.map fun q : Nat × Nat => (List.range' q.1 (q.2 - q.1)).filter p)
        = (chs.map fun q : Nat × Nat => List.range' q.1 (q.2 - q.1)).map
            (List.filter p) := by
      rw [List.map_map]
      rfl
    rw [this, ← List.filter_flatten, hflatEff]
  rw [hflatM] at hctot hcpre
  have htot : c.2 = ((List.range n).filter p).length := by omega
  refine ⟨?_, ?_, ?_, ?_⟩
  · rw [hfp]
    exact htot
  · rw [hfp]
    show array_take c.1 c.2 = (List.range n).filter p
    rw [htot, array_take]
    refine List.ext_getElem (by simp) ?_
    intro k h1 h2
    simp only [List.getElem_map, List.getElem_range]
    have := hcpre k (by simpa using h1)
    rw [Nat.zero_add] at this
    rw [this, List.getD_eq_getElem _ _ h2]
  · intro i hi
    rw [hfp]
    exact hd i (by rw [hflatEff]; exact List.mem_range.mpr hi)
  · intro i hi
    rw [hfp]
    exact hnd i (by rw [hflatEff]; simpa using List.mem_range.not.mpr (by omega))

/-! Frame facts about the phases of `rofi_view_refilter`. -/

theorem refilter_phase_frame (cfg : RofiConfig) (p : Nat → Bool) (lev : Nat → Nat)
    (s : RofiViewState) :
    (refilter_filter_phase cfg p lev s).num_lines = s.num_lines
    ∧ (refilter_filter_phase cfg p lev s).selected = s.selected
    ∧ (refilter_filter_phase cfg p lev s).text = s.text
    ∧ (refilter_filter_phase cfg p lev s).quit = s.quit
    ∧ (refilter_filter_phase cfg p lev s).retv = s.retv
    ∧ (refilter_filter_phase cfg p lev s).custom_action = s.custom_action
    ∧ (refilter_filter_phase cfg p lev s).selected_line = s.selected_line := by
  unfold refilter_filter_phase
  split <;> simp

theorem refilter_clamp_frame (s : RofiViewState) :
    (refilter_clamp_selected s).text = s.text
    ∧ (refilter_clamp_selected s).num_lines = s.num_lines
    ∧ (refilter_clamp_selected s).line_map = s.line_map
    ∧ (refilter_clamp_selected s).distance = s.distance
    ∧ (refilter_clamp_selected s).filtered_lines = s.filtered_lines
    ∧ (refilter_clamp_selected s).quit = s.quit
    ∧ (refilter_clamp_selected s).retv = s.retv
    ∧ (refilter_clamp_selected s).custom_action = s.custom_action
    ∧ (refilter_clamp_selected s).selected_line = s.selected_line := by
  unfold refilter_clamp_selected
  split <;> simp

theorem refilter_auto_frame (cfg : RofiConfig) (s : RofiViewState) :
    (refilter_auto_select cfg s).text = s.text
    ∧ (refilter_auto_select cfg s).num_lines = s.num_lines
    ∧ (refilter_auto_select cfg s).line_map = s.line_map
    ∧ (refilter_auto_select cfg s).distance = s.distance
    ∧ (refilter_auto_select cfg s).filtered_lines = s.filtered_lines
    ∧ (refilter_auto_select cfg s).selected = s.selected := by
  unfold refilter_auto_select
  split <;> simp

theorem rofi_view_refilter_fields (cfg : RofiConfig) (p : Nat → Bool) (lev : Nat → Nat)
    (s : RofiViewState) :
    (rofi_view_refilter cfg p lev s).line_map
        = (refilter_filter_phase cfg p lev s).line_map
    ∧ (rofi_view_refilter cfg p lev s).distance
        = (refilter_filter_phase cfg p lev s).distance
    ∧ (rofi_view_refilter cfg p lev s).filtered_lines
        = (refilter_filter_phase cfg p lev s).filtered_lines
    ∧ (rofi_view_refilter cfg p lev s).num_lines = s.num_lines
    ∧ (rofi_view_refilter cfg p lev s).text = s.text
    ∧ (rofi_view_refilter cfg p lev s).selected
        = (refilter_clamp_selected (refilter_filter_phase cfg p lev s)).selected := by
  obtain ⟨hn, _, ht, _, _, _, _⟩ := refilter_phase_frame cfg p lev s
  obtain ⟨ct, cn, clm, cd, cf, _, _, _, _⟩ :=
    refilter_clamp_frame (refilter_filter_phase cfg p lev s)
  obtain ⟨at', an, alm, ad, af, asel⟩ :=
    refilter_auto_frame cfg (refilter_clamp_selected (refilter_filter_phase cfg p lev s))
  unfold rofi_view_refilter
  refine ⟨?_, ?_, ?_, ?_, ?_, ?_⟩ <;>
    simp only [alm, ad, af, asel, at', an, clm, cd, cf, ct, cn, hn, ht]

/-- Characterization of a filter pass on a non-empty query: the new
`filtered_lines` counts the matches of the sequential scan, the filtered
prefix of `line_map` is that scan (stably sorted by cached distance when
ranking is on), and the distance cache holds the query distance of every
match. -/
theorem refilter_line_map_spec (cfg : RofiConfig) (p : Nat → Bool) (lev : Nat → Nat)
    (s : RofiViewState) (htext : 0 < s.text.length) :
    (rofi_view_refilter cfg p lev s).filtered_lines
        = ((List.range s.num_lines).filter p).length
    ∧ (cfg.levenshtein_sort = false →
        array_take (rofi_view_refilter cfg p lev s).line_map
            (rofi_view_refilter cfg p lev s).filtered_lines
          = (List.range s.num_lines).filter p)
    ∧ (cfg.levenshtein_sort = true →
        array_take (rofi_view_refilter cfg p lev s).line_map
            (rofi_view_refilter cfg p lev s).filtered_lines
          = ((List.range s.num_lines).filter p).mergeSort
              (lev_sort (rofi_view_refilter cfg p lev s).distance))
    ∧ (cfg.levenshtein_sort = true →
        ∀ i ∈ (List.range s.num_lines).filter p,
          (rofi_view_refilter cfg p lev s).distance i = lev i) := by
  obtain ⟨hlm, hdist, hfl, _, _, _⟩ := rofi_view_refilter_fields cfg p lev s
  set nt := max 1 (s.num_lines / 500) with hnt
  set fp := filter_pass cfg.levenshtein_sort p lev s.num_lines nt s.line_map s.distance
    with hfpDef
  obtain ⟨fplen, fptake, fpd, _⟩ :=
    filter_pass_spec cfg.levenshtein_sort p lev s.num_lines nt s.line_map s.distance
      (le_max_left 1 _)
  rw [← hfpDef] at fplen fptake fpd
  have hphase : refilter_filter_phase cfg p lev s
      = { s with
            line_map :=
              if cfg.levenshtein_sort then
                fun k =>
                  if k < fp.2.2 then
                    ((array_take fp.1 fp.2.2).mergeSort (lev_sort fp.2.1)).getD k 0
                  else fp.1 k
              else fp.1,
            distance := fp.2.1,
            filtered_lines := fp.2.2 } := by
    rw [refilter_filter_phase, if_pos htext]
  have hdist_lev : cfg.levenshtein_sort = true →
      ∀ i ∈ (List.range s.num_lines).filter p,
        (rofi_view_refilter cfg p lev s).distance i = lev i := by
    intro hsort i hi
    rw [List.mem_filter, List.mem_range] at hi
    rw [hdist, hphase]
    simp only
    rw [fpd i hi.1, if_pos ⟨hsort, hi.2⟩]
  refine ⟨?_, ?_, ?_, hdist_lev⟩
  · rw [hfl, hphase]
    simpa using fplen
  · intro hsort
    rw [hlm, hfl, hphase]
    simp only [hsort, Bool.false_eq_true, if_false]
    exact fptake
  · intro hsort
    rw [hlm, hfl, hdist, hphase]
    simp only [hsort, if_true]
    rw [fptake, array_take]
    refine List.ext_getElem ?_ ?_
    · simp only [List.length_map, List.length_range, List.length_mergeSort]
      omega
    · intro k h1 h2
      simp only [List.length_map, List.length_range] at h1
      simp only [List.getElem_map, List.getElem_range]
      rw [if_pos h1]
      exact List.getD_eq_getElem _ _ h2

/-! Claim theorems. -/

/-- C1: for every entry source (match predicate `p`) and every chunk count
`nt ≥ 1`, the chunked parallel filter pass — each chunk task packing its
matching indices at the front of its slice of `line_map`, followed by
chunk-order memmove compaction — produces exactly the list a single
left-to-right scan of `[0, num_lines)` keeping the matching indices would
produce; that list is the ascending subsequence of matching indices, and with
ranking disabled a refilter pass on a non-empty query leaves exactly it in
the filtered prefix of `line_map`.  The result does not depend on the chunk
count, the thread count, or the previous array contents. -/
theorem claim_C1 (lev_sort_on : Bool) (p : Nat → Bool) (lev : Nat → Nat)
    (n nt : Nat) (lm dist : Nat → Nat) (hnt : 1 ≤ nt) :
    array_take (filter_pass lev_sort_on p lev n nt lm dist).1
        (filter_pass lev_sort_on p lev n nt lm dist).2.2 = (List.range n).filter p
    ∧ List.Sublist ((List.range n).filter p) (List.range n)
    ∧ ((List.range n).filter p).Pairwise (· < ·)
    ∧ ∀ (cfg : RofiConfig) (s : RofiViewState), cfg.levenshtein_sort = false →
        0 < s.text.length →
        array_take (rofi_view_refilter cfg p lev s).line_map
            (rofi_view_refilter cfg p lev s).filtered_lines
          = (List.range s.num_lines).filter p := by
  obtain ⟨_, htake, _, _⟩ := filter_pass_spec lev_sort_on p lev n nt lm dist hnt
  refine ⟨htake, List.filter_sublist _, ?_, ?_⟩
  · exact (List.pairwise_lt_range n).sublist (List.filter_sublist _)
  · intro cfg s hsort htext
    exact (refilter_line_map_spec cfg p lev s htext).2.1 hsort

theorem claim_C1_witness :
    1 ≤ 3
    ∧ array_take (filter_pass false pMod3 levW 9 3 (fun _ => 99) (fun _ => 0)).1
        (filter_pass false pMod3 levW 9 3 (fun _ => 99) (fun _ => 0)).2.2
      = (List.range 9).filter pMod3 :=
  ⟨by decide, (claim_C1 false pMod3 levW 9 3 (fun _ => 99) (fun _ => 0) (by decide)).1⟩

/-- C2: with levenshtein ranking enabled, after a filter pass on a non-empty
query the filtered index list is ordered by the cached distance of each
entry, ascending; entries of equal cached distance keep their original
entry-source relative order (for every distance value, the subsequence of
entries at that distance equals the one of the unsorted left-to-right scan);
and the cache holds the query distance of every matched entry. -/
theorem claim_C2 (cfg : RofiConfig) (p : Nat → Bool) (lev : Nat → Nat)
    (s : RofiViewState) (hsort : cfg.levenshtein_sort = true)
    (htext : 0 < s.text.length) :
    (array_take (rofi_view_refilter cfg p lev s).line_map
        (rofi_view_refilter cfg p lev s).filtered_lines).Pairwise
      (fun a b => (rofi_view_refilter cfg p lev s).distance a
          ≤ (rofi_view_refilter cfg p lev s).distance b)
    ∧ (∀ d, (array_take (rofi_view_refilter cfg p lev s).line_map
          (rofi_view_refilter cfg p lev s).filtered_lines).filter
            (fun x => (rofi_view_refilter cfg p lev s).distance x == d)
        = ((List.range s.num_lines).filter p).filter
            (fun x => (rofi_view_refilter cfg p lev s).distance x == d))
    ∧ (∀ i ∈ (List.range s.num_lines).filter p,
        (rofi_view_refilter cfg p lev s).distance i = lev i) := by
  obtain ⟨_, _, hms, hcache⟩ := refilter_line_map_spec cfg p lev s htext
  have hl := hms hsort
  set D := (rofi_view_refilter cfg p lev s).distance with hD
  have htrans : ∀ a b c, lev_sort D a b = true → lev_sort D b c = true →
      lev_sort D a c = true := by
    intro a b c h1 h2
    simp only [lev_sort, decide_eq_true_eq] at h1 h2 ⊢
    omega
  have htotal : ∀ a b, (lev_sort D a b || lev_sort D b a) = true := by
    intro a b
    simp only [lev_sort, Bool.or_eq_true, decide_eq_true_eq]
    omega
  refine ⟨?_, ?_, hcache hsort⟩
  · rw [hl]
    refine (List.sorted_mergeSort htrans htotal
      ((List.range s.num_lines).filter p)).imp ?_
    intro a b hab
    simpa [lev_sort] using hab
  · intro d
    set q : Nat → Bool := fun x => D x == d with hq
    set matched := (List.range s.num_lines).filter p with hmatched
    have hSsub : List.Sublist (matched.filter q) matched := List.filter_sublist _
    have hSpair : (matched.filter q).Pairwise (fun a b => lev_sort D a b = true) := by
      refine List.pairwise_iff_forall_sublist.mpr ?_
      intro a b hsub
      have ha : a ∈ matched.filter q := hsub.subset (by simp)
      have hb : b ∈ matched.filter q := hsub.subset (by simp)
      have hda : D a = d := by
        have := (List.mem_filter.mp ha).2
        simpa [hq] using this
      have hdb : D b = d := by
        have := (List.mem_filter.mp hb).2
        simpa [hq] using this
      simp [lev_sort, hda, hdb]
    have hS : List.Sublist (matched.filter q) (matched.mergeSort (lev_sort D)) :=
      List.sublist_mergeSort htrans htotal hSpair hSsub
    have hself : (matched.filter q).filter q = matched.filter q := by
      refine List.filter_eq_self.mpr ?_
      intro a ha
      exact (List.mem_filter.mp ha).2
    have hstep : List.Sublist (matched.filter q) ((matched.mergeSort (lev_sort D)).filter q) := by
      have := List.Sublist.filter q hS
      rwa [hself] at this
    have hlen : ((matched.mergeSort (lev_sort D)).filter q).length
        = (matched.filter q).length := by
      rw [← List.countP_eq_length_filter, ← List.countP_eq_length_filter]
      exact List.Perm.countP_eq q (List.mergeSort_perm matched (lev_sort D))
    have := hstep.eq_of_length hlen.symm
    rw [hl]
    exact this.symm

theorem claim_C2_witness :
    cfgRank.levenshtein_sort = true
    ∧ 0 < sW.text.length
    ∧ (array_take (rofi_view_refilter cfgRank pMod3 levW sW).line_map
        (rofi_view_refilter cfgRank pMod3 levW sW).filtered_lines).Pairwise
      (fun a b => (rofi_view_refilter cfgRank pMod3 levW sW).distance a
          ≤ (rofi_view_refilter cfgRank pMod3 levW sW).distance b) :=
  ⟨rfl, by decide, (claim_C2 cfgRank pMod3 levW sW rfl (by decide)).1⟩

/-- C3: after every filter pass the selection is in range, for every prior
value of `selected`: when candidates remain, `selected ≤ filtered_lines - 1`
(and it is a `Nat`, hence never negative); when none remain, `selected = 0`.
The out-of-range case is corrected by clamping inside the pass itself, not
reported as an error. -/
theorem claim_C3 (cfg : RofiConfig) (p : Nat → Bool) (lev : Nat → Nat)
    (s : RofiViewState) :
    ((rofi_view_refilter cfg p lev s).filtered_lines = 0 →
      (rofi_view_refilter cfg p lev s).selected = 0)
    ∧ (0 < (rofi_view_refilter cfg p lev s).filtered_lines →
      (rofi_view_refilter cfg p lev s).selected
        ≤ (rofi_view_refilter cfg p lev s).filtered_lines - 1) := by
  obtain ⟨_, _, hfl, _, _, hsel⟩ := rofi_view_refilter_fields cfg p lev s
  set t := refilter_filter_phase cfg p lev s with ht
  constructor
  · intro h0
    rw [hfl] at h0
    rw [hsel]
    unfold refilter_clamp_selected
    rw [if_neg (by omega)]
  · intro hpos
    rw [hfl] at hpos
    rw [hsel, hfl]
    unfold refilter_clamp_selected
    rw [if_pos hpos]
    exact Nat.min_le_right _ _

theorem claim_C3_witness :
    0 < (rofi_view_refilter cfgPlain pMod3 levW sW).filtered_lines
    ∧ (rofi_view_refilter cfgPlain pMod3 levW sW).selected
        ≤ (rofi_view_refilter cfgPlain pMod3 levW sW).filtered_lines - 1 :=
  ⟨by decide, (claim_C3 cfgPlain pMod3 levW sW).2 (by decide)⟩

/-- C7: with auto-select configured, more than one unfiltered entry and
exactly one candidate left by the filter pass, the pass itself terminates the
session — MENU_OK, quit set, selected_line set to `line_map[selected]`
(= the single matching entry, selection having been clamped to 0) — without
any further input event. -/
theorem claim_C7 (cfg : RofiConfig) (p : Nat → Bool) (lev : Nat → Nat)
    (s : RofiViewState) (hauto : cfg.auto_select = true)
    (hnum : 1 < s.num_lines)
    (hone : (rofi_view_refilter cfg p lev s).filtered_lines = 1) :
    (rofi_view_refilter cfg p lev s).retv = .MENU_OK
    ∧ (rofi_view_refilter cfg p lev s).quit = true
    ∧ (rofi_view_refilter cfg p lev s).selected = 0
    ∧ (rofi_view_refilter cfg p lev s).selected_line
        = (rofi_view_refilter cfg p lev s).line_map 0 := by
  set t := refilter_filter_phase cfg p lev s with ht
  obtain ⟨htn, _, _, _, _, _, _⟩ := refilter_phase_frame cfg p lev s
  obtain ⟨_, hcn, hclm, _, hcf, _, _, _, _⟩ := refilter_clamp_frame t
  obtain ⟨_, _, hfl3, _, _, _⟩ := rofi_view_refilter_fields cfg p lev s
  have htf : t.filtered_lines = 1 := by rw [← hfl3]; exact hone
  set u := refilter_clamp_selected t with hu
  have huf : u.filtered_lines = 1 := by rw [hu, hcf]; exact htf
  have hun : u.num_lines = s.num_lines := by rw [hu, hcn, htn]
  have husel : u.selected = 0 := by
    rw [hu]
    unfold refilter_clamp_selected
    rw [if_pos (by omega)]
    simp [htf]
  have hv : refilter_auto_select cfg u
      = { u with selected_line := u.line_map u.selected, retv := .MENU_OK,
                 quit := true } := by
    unfold refilter_auto_select
    rw [if_pos ⟨hauto, huf, by omega⟩]
  have hr : rofi_view_refilter cfg p lev s
      = { refilter_auto_select cfg u with
            refilter := false, rchanged := true, update := true } := rfl
  rw [hr, hv]
  refine ⟨rfl, rfl, ?_, ?_⟩
  · simpa using husel
  · simp [husel]

theorem claim_C7_witness :
    cfgAuto.auto_select = true ∧ 1 < sW1.num_lines
    ∧ (rofi_view_refilter cfgAuto pEq2 levW sW1).filtered_lines = 1
    ∧ (rofi_view_refilter cfgAuto pEq2 levW sW1).retv = .MENU_OK :=
  ⟨rfl, by decide, by decide,
    (claim_C7 cfgAuto pEq2 levW sW1 rfl (by decide) (by decide)).1⟩

/-- C4 counterexample: with a grid of two exactly full columns
(filtered_lines = 4, max_rows = 2) and the selection at the top of the last
occupied column (selected = 2), the claim's conditions say Right leaves the
selection unchanged (no room to advance by a column, already in the last
occupied column), but the code jumps to the last element: its test compares
the current column with `filtered_lines / max_rows = 2`, which is the column
COUNT — not the last occupied column index 1 — whenever the last column is
exactly full. -/
theorem claim_C4_counterexample :
    ¬ (s4.selected + s4.max_rows < s4.filtered_lines)
    ∧ s4.selected / s4.max_rows
        = spec_last_occupied_column s4.filtered_lines s4.max_rows
    ∧ (rofi_view_nav_right s4).selected ≠ s4.selected := by decide

/-- C4 amended: for filtered_lines > 0, max_rows ≥ 1 and an in-range
selection, Right advances by `max_rows` when that stays below
`filtered_lines`; otherwise, if the selection is not at the last element, it
jumps to `filtered_lines - 1` exactly when the current column index
`selected / max_rows` differs from `filtered_lines / max_rows` (with a
partially filled last column this means "not already in the last occupied
column"; with an exactly full last column it holds from every column), and
stays put otherwise; Right never wraps, never decreases the selection and
never leaves `[0, filtered_lines - 1]`. -/
theorem claim_C4_amended (s : RofiViewState) (h0 : 0 < s.filtered_lines)
    (_hr : 1 ≤ s.max_rows) (hs : s.selected ≤ s.filtered_lines - 1) :
    (s.selected + s.max_rows < s.filtered_lines →
      (rofi_view_nav_right s).selected = s.selected + s.max_rows)
    ∧ (¬ s.selected + s.max_rows < s.filtered_lines →
        s.selected < s.filtered_lines - 1 →
        s.selected / s.max_rows ≠ s.filtered_lines / s.max_rows →
        (rofi_view_nav_right s).selected = s.filtered_lines - 1)
    ∧ (¬ s.selected + s.max_rows < s.filtered_lines →
        s.selected < s.filtered_lines - 1 →
        s.selected / s.max_rows = s.filtered_lines / s.max_rows →
        (rofi_view_nav_right s).selected = s.selected)
    ∧ (¬ s.selected + s.max_rows < s.filtered_lines →
        ¬ s.selected < s.filtered_lines - 1 →
        (rofi_view_nav_right s).selected = s.selected)
    ∧ s.selected ≤ (rofi_view_nav_right s).selected
    ∧ (rofi_view_nav_right s).selected ≤ s.filtered_lines - 1 := by
  unfold rofi_view_nav_right
  rw [if_neg (by omega)]
  split_ifs with h1 h2 h3
  · exact ⟨fun _ => by simp, fun hn => absurd h1 hn, fun hn => absurd h1 hn,
      fun hn => absurd h1 hn, by simp, by simp; omega⟩
  · exact ⟨fun hc => absurd hc h1, fun _ _ _ => by simp, fun _ _ heq => absurd heq h3,
      fun _ hc => absurd h2 hc, by simp; omega, by simp⟩
  · exact ⟨fun hc => absurd hc h1, fun _ _ hne => absurd hne h3, fun _ _ _ => rfl,
      fun _ hc => absurd h2 hc, le_refl _, hs⟩
  · exact ⟨fun hc => absurd hc h1, fun _ hc => absurd hc h2, fun _ hc => absurd hc h2,
      fun _ _ => rfl, le_refl _, hs⟩

theorem claim_C4_witness :
    0 < sNavR.filtered_lines ∧ 1 ≤ sNavR.max_rows
    ∧ sNavR.selected ≤ sNavR.filtered_lines - 1
    ∧ (rofi_view_nav_right sNavR).selected ≤ sNavR.filtered_lines - 1 :=
  ⟨by decide, by decide, by decide,
    (claim_C4_amended sNavR (by decide) (by decide) (by decide)).2.2.2.2.2⟩

/-- Arithmetic fact: the padding expression the layout code uses is ceiling
division. -/
theorem code_ceil (a b : Nat) (hb : 0 < b) :
    (a + (b - a % b) % b) / b = nat_ceil_div a b := by
  have hdm : b * (a / b) + a % b = a := Nat.div_add_mod a b
  have hrlt : a % b < b := Nat.mod_lt a hb
  by_cases h0 : a % b = 0
  · have h1 : (b - a % b) % b = 0 := by rw [h0]; simp
    have h2 : a + b - 1 = b * (a / b) + (b - 1) := by omega
    rw [nat_ceil_div, h1, Nat.add_zero, h2, Nat.mul_add_div hb,
      Nat.div_eq_of_lt (show b - 1 < b by omega), Nat.add_zero]
  · have h1 : (b - a % b) % b = b - a % b := Nat.mod_eq_of_lt (by omega)
    have h2 : a + (b - a % b) = b * (a / b) + b := by omega
    have h3 : a + b - 1 = b * (a / b) + (a % b - 1 + b) := by omega
    rw [nat_ceil_div, h1, h2, h3, Nat.mul_add_div hb, Nat.mul_add_div hb,
      Nat.div_self hb, Nat.add_div_right _ hb,
      Nat.div_eq_of_lt (show a % b - 1 < b by omega)]

/-- Helper: the column sanitization `if (columns == 0) columns = 1` is
`max 1`. -/
theorem sanitize_eq_max (c : Nat) : (if c = 0 then 1 else c) = max 1 c := by
  by_cases h : c = 0
  · simp [h]
  · rw [if_neg h]
    omega

/-- C5 counterexample: in non-fixed mode with 1 column, 15 menu lines and
100 entries the code computes `max_rows = min 15 (ceil (100 / 1)) = 15`,
not the claim's `max(1, ceil(100 / 1)) = 100`: the claim omits the cap by
`menu_lines`. -/
theorem claim_C5_counterexample :
    (rofi_view_calculate_rows_columns false 1 15 100).max_rows
      ≠ spec_max_rows 100 1 := by decide

/-- C5 amended: with columns ≥ 1 and menu_lines ≥ 1, in non-fixed mode
`max_rows = max 1 (min menu_lines (ceil (num_lines / columns)))` — the
spec's formula additionally capped by `menu_lines`, computed over the
unfiltered entry count `num_lines` (the function runs once at view
creation) — and `columns` stays the configured value; in fixed mode
`max_rows = menu_lines` and, when `num_lines` is smaller than the capacity
`menu_lines * columns`, `columns = max 1 (ceil (num_lines / menu_lines))`
(derived from the entry count rounded up to fill the fixed rows), else the
configured column count. -/
theorem claim_C5_amended (fixed : Bool) (menu_columns menu_lines num_lines : Nat)
    (hc : 0 < menu_columns) (hl : 0 < menu_lines) :
    (fixed = false →
      (rofi_view_calculate_rows_columns fixed menu_columns menu_lines
          num_lines).max_rows
        = max 1 (min menu_lines (nat_ceil_div num_lines menu_columns))
      ∧ (rofi_view_calculate_rows_columns fixed menu_columns menu_lines
          num_lines).columns = menu_columns)
    ∧ (fixed = true →
      (rofi_view_calculate_rows_columns fixed menu_columns menu_lines
          num_lines).max_rows = menu_lines
      ∧ (num_lines < menu_lines * menu_columns →
          (rofi_view_calculate_rows_columns fixed menu_columns menu_lines
              num_lines).columns = max 1 (nat_ceil_div num_lines menu_lines))
      ∧ (¬ num_lines < menu_lines * menu_columns →
          (rofi_view_calculate_rows_columns fixed menu_columns menu_lines
              num_lines).columns = menu_columns)) := by
  constructor
  · intro hf
    subst hf
    unfold rofi_view_calculate_rows_columns
    rw [if_neg Bool.false_ne_true, code_ceil num_lines menu_columns hc]
    exact ⟨rfl, rfl⟩
  · intro hf
    subst hf
    unfold rofi_view_calculate_rows_columns
    rw [if_pos rfl]
    dsimp only
    refine ⟨rfl, ?_, ?_⟩
    · intro hlt
      rw [if_pos hlt]
      show (if (num_lines + (menu_lines - num_lines % menu_lines) % menu_lines)
            / menu_lines = 0 then 1
          else (num_lines + (menu_lines - num_lines % menu_lines) % menu_lines)
            / menu_lines) = _
      rw [code_ceil num_lines menu_lines hl, sanitize_eq_max]
    · intro hge
      rw [if_neg hge]
      show (if menu_columns = 0 then 1 else menu_columns) = menu_columns
      rw [if_neg (by omega)]

theorem claim_C5_witness :
    0 < 3 ∧ 0 < 5
    ∧ (rofi_view_calculate_rows_columns true 3 5 7).max_rows = 5 :=
  ⟨by decide, by decide,
    ((claim_C5_amended true 3 5 7 (by decide) (by decide)).2 rfl).1⟩

/-- C6 (code-bug evidence): with no candidates left and the advance key
bound (key 9 resolves to ROW_TAB, nothing else), pressing it twice in
immediate succession does NOT terminate the session with MENU_NEXT: every
handled branch of `rofi_view_keyboard_navigation` returns before the
`state->prev_key = key` assignment on the fall-through path, so the first
advance press leaves `prev_key` at the last unhandled key (50 here, e.g. the
last typed character) and the double-press test `key == state->prev_key` of
the second press fails; both presses run `rofi_view_nav_down`, a no-op at
`filtered_lines == 0`, and the session does not quit. -/
theorem claim_C6_bug :
    (rofi_view_keyboard_navigation abe6 comp6 9
        (rofi_view_keyboard_navigation abe6 comp6 9 s6).1).1.quit = false
    ∧ (rofi_view_keyboard_navigation abe6 comp6 9
        (rofi_view_keyboard_navigation abe6 comp6 9 s6).1).1.retv ≠ .MENU_NEXT
    ∧ (rofi_view_keyboard_navigation abe6 comp6 9 s6).2 = true
    ∧ (rofi_view_keyboard_navigation abe6 comp6 9 s6).1.prev_key = s6.prev_key := by
  decide

/-- C8: on an accept keypress reaching the textbox (no earlier dispatch rule
matched, session not already quitting, `textbox_keypress` returned a
negative code): the session always quits; with a valid selection the outcome
is MENU_OK carrying `line_map[selected]`; without one it falls back to
MENU_CUSTOM_INPUT with the query text unchanged (never an error); and the
MENU_CUSTOM_ACTION modifier bit is set exactly when the auxiliary-modifier
accept variant (return code -2) was used. -/
theorem claim_C8 (rc : Int) (s : RofiViewState) (hq : s.quit = false)
    (hrc : rc < 0) :
    (rofi_view_process_keypress_result rc s).quit = true
    ∧ (s.selected < s.filtered_lines →
        (rofi_view_process_keypress_result rc s).retv = .MENU_OK
        ∧ (rofi_view_process_keypress_result rc s).selected_line
            = s.line_map s.selected)
    ∧ (¬ s.selected < s.filtered_lines →
        (rofi_view_process_keypress_result rc s).retv = .MENU_CUSTOM_INPUT
        ∧ (rofi_view_process_keypress_result rc s).text = s.text)
    ∧ ((rofi_view_process_keypress_result rc s).custom_action = true
        ↔ accept_modified_variant rc = true) := by
  unfold rofi_view_process_keypress_result
  rw [if_neg (by simp [hq]), if_pos hrc]
  dsimp only
  by_cases hsel : s.selected < s.filtered_lines
  · rw [if_pos hsel]
    by_cases h2 : rc = -2
    · rw [if_pos h2]
      refine ⟨rfl, fun _ => ⟨rfl, rfl⟩, fun hc => absurd hsel hc, ?_⟩
      simp [accept_modified_variant, h2]
    · rw [if_neg h2]
      refine ⟨rfl, fun _ => ⟨rfl, rfl⟩, fun hc => absurd hsel hc, ?_⟩
      simp [accept_modified_variant, h2]
  · rw [if_neg hsel]
    by_cases h2 : rc = -2
    · rw [if_pos h2]
      refine ⟨rfl, fun hc => absurd hc hsel, fun _ => ⟨rfl, rfl⟩, ?_⟩
      simp [accept_modified_variant, h2]
    · rw [if_neg h2]
      refine ⟨rfl, fun hc => absurd hc hsel, fun _ => ⟨rfl, rfl⟩, ?_⟩
      simp [accept_modified_variant, h2]

theorem claim_C8_witness :
    s8.quit = false ∧ (-2 : Int) < 0
    ∧ (rofi_view_process_keypress_result (-2) s8).quit = true :=
  ⟨rfl, by decide, (claim_C8 (-2) s8 rfl (by decide)).1⟩

/-- C9: drun's match predicate returns true iff every token is individually
satisfied by at least one of the entry's text fields — present name, present
generic name, or executable — where different tokens may be satisfied by
different fields; the empty token list matches every entry. -/
theorem claim_C9 (tm : String → String → Bool) (e : DRunModeEntry)
    (tokens : List String) :
    (drun_token_match tm e tokens = true ↔
      ∀ t ∈ tokens,
        (∃ n, e.name = some n ∧ tm t n = true)
        ∨ (∃ g, e.generic_name = some g ∧ tm t g = true)
        ∨ tm t e.exec = true)
    ∧ drun_token_match tm e [] = true := by
  have hfield : ∀ t, drun_field_test tm e t = true ↔
      ((∃ n, e.name = some n ∧ tm t n = true)
        ∨ (∃ g, e.generic_name = some g ∧ tm t g = true)
        ∨ tm t e.exec = true) := by
    intro t
    unfold drun_field_test
    rcases hn : e.name with _ | n <;> rcases hg : e.generic_name with _ | g <;>
      simp [hn, hg, Bool.or_eq_true, or_assoc]
  refine ⟨?_, rfl⟩
  rw [drun_token_match, List.all_eq_true]
  constructor
  · intro h t ht
    exact (hfield t).mp (h t ht)
  · intro h t ht
    exact (hfield t).mpr (h t ht)

/-- C10: each selection-mutation operation (up, down, left, right,
page-prev, page-next, first, last) modifies only the selection index and the
redraw flag: the query text, the filtered index list `line_map`, the
distance cache, `filtered_lines`, the unfiltered entry count, the layout
parameters (max_rows, columns, max_elements, menu_lines) and the outcome and
bookkeeping fields are unchanged by each of them. -/
theorem claim_C10 :
    NavPreserves rofi_view_nav_up
    ∧ NavPreserves rofi_view_nav_down
    ∧ NavPreserves rofi_view_nav_left
    ∧ NavPreserves rofi_view_nav_right
    ∧ NavPreserves rofi_view_nav_page_prev
    ∧ NavPreserves rofi_view_nav_page_next
    ∧ NavPreserves rofi_view_nav_first
    ∧ NavPreserves rofi_view_nav_last := by
  refine ⟨?_, ?_, ?_, ?_, ?_, ?_, ?_, ?_⟩
  · intro s
    unfold rofi_view_nav_up
    simp
  · intro s
    unfold rofi_view_nav_down
    split_ifs <;> simp
  · intro s
    unfold rofi_view_nav_left
    split_ifs <;> simp
  · intro s
    unfold rofi_view_nav_right
    split_ifs <;> simp
  · intro s
    unfold rofi_view_nav_page_prev
    split_ifs <;> simp
  · intro s
    unfold rofi_view_nav_page_next
    dsimp only
    split_ifs <;> simp
  · intro s
    unfold rofi_view_nav_first
    simp
  · intro s
    unfold rofi_view_nav_last
    split_ifs <;> simp

end RofiSpec
